import Mathlib

/-!
Verification of the LazyLLM excerpt.

Shallow embedding of the two engineering pieces of the repository:

* `src/lazyllm/agent/func_call_agent.py` — `FuncCallAgent._run`, the
  tool-call loop controller with its streaming response assembler; and
* `src/lazyllm/module.py` — `ModuleBase.update` (the task-graph collector
  and executor launch logic) and `ModuleBase.__setattr__`.

Python dict-valued messages become a `Message` structure with `Option`
fields; Python truthiness (`if role:`) is modelled explicitly; the
generator's `yield`s are accumulated in a `yields` field; exceptions
(`assert`, `history[-1]` on an empty list) become an `Except` result.
`MAX_CONSECUTIVE_TOOL_CALL_NUM` comes from `lazyllm.agent.configs`, which
is outside the excerpt, so it is a parameter `maxCalls` throughout.
-/

namespace LazyLLMProof

/-- Role constant `ASSISTANT = "assistant"` from `lazyllm.agent.protocol`. -/
def ASSISTANT : String := "assistant"

/-- Role constant `TOOL = "tool"` from `lazyllm.agent.protocol`. -/
def TOOL : String := "tool"

/-- One tool-call request as read by `_run`:
`tool_call["id"]`, `tool_call["function"]["name"]`,
`tool_call["function"]["arguments"]` (the nested `function` dict is
flattened into the two fields it contributes). -/
structure ToolCall where
  id : String
  name : String
  arguments : String
  deriving DecidableEq, Repr

/-- A message dict (both a history `Message` and a streamed response
fragment have this shape). `none` models an absent key, so that
`response.get(KEY, None)` is field access. An absent / `None` / empty
`tool_calls` list are all falsy in Python, hence a plain list with `[]`
for absence. -/
structure Message where
  role : Option String := none
  content : Option String := none
  name : Option String := none
  tool_call_id : Option String := none
  tool_calls : List ToolCall := []
  deriving DecidableEq, Repr

/-- Python truthiness of an optional string: `None` and `""` are falsy. -/
def truthy : Option String → Bool
  | none => false
  | some s => !(s == "")

/-- Exceptions `_run` can raise: the `assert last_role == ASSISTANT`
failure (line 62) and the `llm_chat_history[-1]` lookup on an empty list
(line 79). -/
inductive RunError where
  | assertionError
  | indexError
  deriving DecidableEq, Repr

/-- The mutable local state of one `_run` invocation.  `caller_history`
stands for the caller's own list object: line 43 rebinds
`llm_chat_history` to `copy.deepcopy(llm_chat_history)`, so the loop's
appends target an independent copy while the caller's object is left
alone.  `dispatch_rounds` is ghost instrumentation counting the loop
rounds in which at least one tool-calls fragment was dispatched; it has
no counterpart in the Python state and influences nothing. -/
structure AgentState where
  caller_history : List Message
  llm_chat_history : List Message
  last_role : Option String
  content_cache : List String
  tool_call_counter : Nat
  dispatch_rounds : Nat
  yields : List Message
  deriving DecidableEq, Repr

/-- Append a message to the loop's (deep-copied) history. -/
def pushHistory (s : AgentState) (m : Message) : AgentState :=
  { s with llm_chat_history := s.llm_chat_history ++ [m] }

/-- Record a `yield` to the caller. -/
def pushYield (s : AgentState) (m : Message) : AgentState :=
  { s with yields := s.yields ++ [m] }

/-- Lines 53-55 and 76-78: `if content_cache:` flush the accumulated text
as a turn with role `last_role` and clear the cache. -/
def flushCache (s : AgentState) : AgentState :=
  if s.content_cache.isEmpty then s
  else
    let m : Message := { role := s.last_role, content := some (String.join s.content_cache) }
    { pushHistory s m with content_cache := [] }

/-- Lines 65-73: dispatch each tool call of the batch in request order via
`_call_tool`; a non-`None` result is appended to history and yielded. -/
def dispatchToolCalls (callTool : String → String → Option String) :
    AgentState → List ToolCall → AgentState
  | s, [] => s
  | s, tc :: rest =>
    match callTool tc.name tc.arguments with
    | none => dispatchToolCalls callTool s rest
    | some res =>
      let m : Message := { role := some TOOL, content := some res,
                           name := some tc.name, tool_call_id := some tc.id }
      dispatchToolCalls callTool (pushYield (pushHistory s m) m) rest

/-- The tool-result message a single request produces, if any (used to
state order properties about `dispatchToolCalls`). -/
def toolResultMsg (callTool : String → String → Option String) (tc : ToolCall) :
    Option Message :=
  (callTool tc.name tc.arguments).map fun res =>
    { role := some TOOL, content := some res, name := some tc.name, tool_call_id := some tc.id }

/-- The state reached after processing one assistant fragment carrying
the batch `tcs` from a state with an empty cache: the assistant turn
(with empty content) and the produced result turns are appended, the
fragment and the result turns are yielded, and the counter is bumped.
Named so that round-level lemmas can refer to it compactly. -/
def batchState (callTool : String → String → Option String)
    (s : AgentState) (tcs : List ToolCall) : AgentState :=
  { s with last_role := some ASSISTANT,
           llm_chat_history := s.llm_chat_history ++
             ({ role := some ASSISTANT, content := some "", tool_calls := tcs } ::
               tcs.filterMap (toolResultMsg callTool)),
           content_cache := [],
           tool_call_counter := s.tool_call_counter + 1,
           yields := s.yields ++
             ({ role := some ASSISTANT, tool_calls := tcs } ::
               tcs.filterMap (toolResultMsg callTool)) }

/-- Lines 51-56: on a truthy `role`, flush the cache (as a `last_role`
turn) and record the new role. -/
def roleStep (s : AgentState) (response : Message) : AgentState :=
  if truthy response.role then
    { flushCache s with last_role := response.role }
  else s

/-- Lines 57-59: accumulate truthy `content` into the cache. -/
def contentStep (s : AgentState) (response : Message) : AgentState :=
  if truthy response.content then
    { s with content_cache := s.content_cache ++ [response.content.getD ""] }
  else s

/-- Lines 60-74: on a non-empty `tool_calls`, assert the assistant role
context, append the assistant turn carrying the cached content and the
tool calls, dispatch them, and bump `tool_call_counter` by one. -/
def toolCallsStep (callTool : String → String → Option String)
    (s : AgentState) (response : Message) : Except RunError AgentState :=
  if response.tool_calls.isEmpty then .ok s
  else if s.last_role = some ASSISTANT then
    let m : Message := { role := some ASSISTANT,
                         content := some (String.join s.content_cache),
                         tool_calls := response.tool_calls }
    let s4 := { pushHistory s m with content_cache := [] }
    let s5 := dispatchToolCalls callTool s4 response.tool_calls
    .ok { s5 with tool_call_counter := s5.tool_call_counter + 1 }
  else .error .assertionError

/-- Lines 50-74, the body of `for response in llm_response`: yield the
fragment, then run the role, content and tool-calls steps in source
order. -/
def processFragment (callTool : String → String → Option String)
    (s : AgentState) (response : Message) : Except RunError AgentState :=
  toolCallsStep callTool (contentStep (roleStep (pushYield s response) response) response)
    response

/-- Line 49: fold `processFragment` over the backend's fragment sequence. -/
def processFragments (callTool : String → String → Option String) :
    AgentState → List Message → Except RunError AgentState
  | s, [] => .ok s
  | s, r :: rest =>
    match processFragment callTool s r with
    | .error e => .error e
    | .ok s' => processFragments callTool s' rest

/-- Ghost bookkeeping at the end of a round: when the round increased the
consecutive-tool-call counter (it dispatched at least one tool-calls
batch) it counts as a tool-dispatch round.  Pure instrumentation, no
Python counterpart; it feeds nothing back into the computation. -/
def ghostStep (sPrev sNew : AgentState) : AgentState :=
  if sPrev.tool_call_counter < sNew.tool_call_counter then
    { sNew with dispatch_rounds := sNew.dispatch_rounds + 1 }
  else sNew

/-- One iteration of the `while` body (lines 48-80): call the backend
(`_call_llm`, its fixed `__input`/`tools`/`generate_cfg` arguments folded
into the `backend` closure, the history passed each round), process its
fragments, flush a trailing cache, then test `llm_chat_history[-1][ROLE]`:
an empty history raises `IndexError`; the returned flag is whether the
last turn's role is `TOOL` (i.e. the `break` at line 80 is *not* taken). -/
def runRound (backend : List Message → List Message)
    (callTool : String → String → Option String)
    (s : AgentState) : Except RunError (AgentState × Bool) :=
  match processFragments callTool s (backend s.llm_chat_history) with
  | .error e => .error e
  | .ok s1 =>
    match (ghostStep s (flushCache s1)).llm_chat_history.getLast? with
    | none => .error .indexError
    | some m => .ok (ghostStep s (flushCache s1), m.role = some TOOL)

/-- The `while tool_call_counter < MAX_CONSECUTIVE_TOOL_CALL_NUM` loop,
with `fuel` bounding how many times the guard may be (re)checked.
`.ok none` means the budget ran out with the loop still running;
`.ok (some s)` is normal completion (guard false, or `break`). -/
def runLoop (maxCalls : Nat) (backend : List Message → List Message)
    (callTool : String → String → Option String) :
    Nat → AgentState → Except RunError (Option AgentState)
  | 0, _ => .ok none
  | fuel + 1, s =>
    if s.tool_call_counter < maxCalls then
      match runRound backend callTool s with
      | .error e => .error e
      | .ok (s', true) => runLoop maxCalls backend callTool fuel s'
      | .ok (s', false) => .ok (some s')
    else .ok (some s)

/-- Line 43-46: the entry state of `_run`.  `llm_chat_history` is the
deep copy of the caller's history; `caller_history` remembers the
caller's own object. -/
def initAgentState (history : List Message) : AgentState :=
  { caller_history := history
    llm_chat_history := history
    last_role := none
    content_cache := []
    tool_call_counter := 0
    dispatch_rounds := 0
    yields := [] }

/-- The whole `FuncCallAgent._run` body, from a caller-supplied history. -/
def runAgent (maxCalls : Nat) (backend : List Message → List Message)
    (callTool : String → String → Option String)
    (history : List Message) (fuel : Nat) : Except RunError (Option AgentState) :=
  runLoop maxCalls backend callTool fuel (initAgentState history)

/-- Termination of an invocation: some finite budget suffices for the
loop to finish, normally or with an exception. -/
def runCompletes (maxCalls : Nat) (backend : List Message → List Message)
    (callTool : String → String → Option String) (history : List Message) : Prop :=
  ∃ fuel, runAgent maxCalls backend callTool history fuel ≠ .ok none

/-! Embedding of `src/lazyllm/module.py`.  A composition tree node carries
at most one task descriptor per phase (the results of `_get_train_tasks`,
`_get_deploy_tasks`, `_get_eval_tasks`) and its `submodules` list;
descriptors are abstracted to `Nat` labels, which is all the collector
inspects. -/

/-- A `ModuleBase` object as the `update` traversal sees it: its three
phase hooks' results and its `submodules`. -/
inductive ModuleTree where
  | node (trainTask deployTask evalTask : Option Nat) (children : List ModuleTree)

/-- The `submodules` list of a node. -/
def ModuleTree.children : ModuleTree → List ModuleTree
  | .node _ _ _ cs => cs

/-- Result of `_get_train_tasks` on this node. -/
def ModuleTree.trainTask : ModuleTree → Option Nat
  | .node t _ _ _ => t

/-- Result of `_get_deploy_tasks` on this node. -/
def ModuleTree.deployTask : ModuleTree → Option Nat
  | .node _ d _ _ => d

/-- Result of `_get_eval_tasks` on this node. -/
def ModuleTree.evalTask : ModuleTree → Option Nat
  | .node _ _ e _ => e

mutual
/-- Number of nodes of a tree (termination measure for the collector). -/
def sizeT : ModuleTree → Nat
  | .node _ _ _ cs => 1 + sizeL cs
/-- Number of nodes of a forest. -/
def sizeL : List ModuleTree → Nat
  | [] => 0
  | c :: cs => sizeT c + sizeL cs
end

/-- Modelled from the spec: `FlatList.absorb` (class `FlatList`, imported
from `lazyllm` and not part of the excerpt) appends a produced task
descriptor and ignores `None` — "nodes contributing none are simply
absent from that phase's collection (never a placeholder)". -/
def absorb (l : List Nat) : Option Nat → List Nat
  | none => l
  | some t => l ++ [t]

/-- The three `FlatList` accumulators of `ModuleBase.update`. -/
structure TaskLists where
  train_tasks : List Nat
  deploy_tasks : List Nat
  eval_tasks : List Nat
  deriving DecidableEq, Repr

/-- Pop step of the traversal (the `except StopIteration` branch): absorb
the popped node's three hooks. -/
def absorbNode (acc : TaskLists) (t : ModuleTree) : TaskLists :=
  { train_tasks := absorb acc.train_tasks t.trainTask
    deploy_tasks := absorb acc.deploy_tasks t.deployTask
    eval_tasks := absorb acc.eval_tasks t.evalTask }

/-- Absorb a list of nodes in order (specification-side helper). -/
def absorbNodes (acc : TaskLists) (ts : List ModuleTree) : TaskLists :=
  ts.foldl absorbNode acc

/-- Weight of the explicit stack: remaining-children sizes of each entry. -/
def stackWeight : List (ModuleTree × List ModuleTree) → Nat
  | [] => 0
  | (_, rem) :: rest => sizeL rem + stackWeight rest

/-- Lines 55-64 of `module.py`: the explicit-stack depth-first traversal.
The Python stack of `(node, iter(node.submodules))` pairs is a Lean list
with its head as the stack top; `next` on the iterator is taking the head
of the remaining-children list.  An exhausted iterator pops the node and
absorbs its three hooks' results. -/
def collectLoop : List (ModuleTree × List ModuleTree) → TaskLists → TaskLists
  | [], acc => acc
  | (t, []) :: rest, acc => collectLoop rest (absorbNode acc t)
  | (t, c :: rem) :: rest, acc =>
      collectLoop ((c, c.children) :: (t, rem) :: rest) acc
  termination_by stack _ => 2 * stackWeight stack + stack.length
  decreasing_by
  · simp [stackWeight]
    omega
  · simp [stackWeight, sizeL]
    have h : sizeT c = 1 + sizeL c.children := by
      cases c with
      | node a b d cs => simp [sizeT, ModuleTree.children]
    omega

mutual
/-- Specification-side post-order enumeration of a tree's nodes:
descendants first, then the node itself. -/
def postT : ModuleTree → List ModuleTree
  | .node a b c cs => postL cs ++ [.node a b c cs]
/-- Post-order enumeration of a forest, left to right. -/
def postL : List ModuleTree → List ModuleTree
  | [] => []
  | c :: cs => postT c ++ postL cs
end

/-- Lines 54-64: the collection pass of `ModuleBase.update`, starting from
`stack = [(self, iter(self.submodules if recursive else []))]` with empty
accumulators. -/
def updateCollect (root : ModuleTree) (recursive : Bool) : TaskLists :=
  collectLoop [(root, if recursive then root.children else [])] ⟨[], [], []⟩

/-- The `mode` argument of `update` (`assert mode in ('train', 'server')`). -/
inductive Mode where
  | train
  | server
  deriving DecidableEq, Repr

/-- Which flow class a batch of tasks is handed to. -/
inductive FlowKind where
  | parallelFlow
  | dpesFlow
  deriving DecidableEq, Repr

/-- One launch performed by `update` after collection: which flow class
was constructed over which tasks, and whether `.wait()` was called on the
started flow.  `Parallel` and `DPES` come from `lazyllm.flow`, outside
the excerpt, so only the launch/wait calls visible in `module.py` are
recorded. -/
structure Launch where
  kind : FlowKind
  tasks : List Nat
  waited : Bool
  deriving DecidableEq, Repr

/-- Lines 51-71: `ModuleBase.update`.  The returned launches mirror the
source exactly: `Parallel(*train_tasks).start().wait()` when training and
the train list is non-empty; `DPES(*deploy_tasks).start()` (no `.wait()`)
when the deploy list is non-empty; `DPES(*eval_tasks).start()` (again no
`.wait()`) when training and the eval list is non-empty. -/
def update (root : ModuleTree) (mode : Mode) (recursive : Bool) :
    TaskLists × List Launch :=
  let lists := updateCollect root recursive
  let launches :=
    (if mode = Mode.train ∧ ¬ lists.train_tasks.isEmpty then
       [⟨FlowKind.parallelFlow, lists.train_tasks, true⟩] else []) ++
    (if ¬ lists.deploy_tasks.isEmpty then
       [⟨FlowKind.dpesFlow, lists.deploy_tasks, false⟩] else []) ++
    (if mode = Mode.train ∧ ¬ lists.eval_tasks.isEmpty then
       [⟨FlowKind.dpesFlow, lists.eval_tasks, false⟩] else [])
  (lists, launches)

/-! Embedding of `ModuleBase.__setattr__` (lines 19-22 of `module.py`). -/

/-- A Python value as far as `__setattr__` cares: either a `ModuleBase`
instance (tagged with an identity) or anything else. -/
inductive PyValue where
  | moduleVal (id : Nat)
  | plainVal (n : Nat)
  deriving DecidableEq, Repr

/-- The `isinstance(value, ModuleBase)` test. -/
def PyValue.isModule : PyValue → Bool
  | .moduleVal _ => true
  | .plainVal _ => false

/-- The attribute-relevant state of a `ModuleBase` object: its
`submodules` list and its other attribute bindings. -/
structure ModuleObj where
  submodules : List PyValue
  attrs : List (String × PyValue)
  deriving DecidableEq, Repr

/-- Overwrite-or-add semantics of `object.__setattr__` on the attribute
dictionary. -/
def setAttrDict (l : List (String × PyValue)) (nm : String) (v : PyValue) :
    List (String × PyValue) :=
  l.filter (fun p => p.1 ≠ nm) ++ [(nm, v)]

/-- Lines 19-22: `ModuleBase.__setattr__` first appends the value to
`self.submodules` whenever it is a `ModuleBase` instance, then performs
the ordinary attribute assignment. -/
def setattrModule (s : ModuleObj) (nm : String) (v : PyValue) : ModuleObj :=
  let s1 := if v.isModule then { s with submodules := s.submodules ++ [v] } else s
  { s1 with attrs := setAttrDict s1.attrs nm v }

/-! Model of the tool dispatcher behind `self._call_tool`.
`BaseAgent._call_tool` lives in `lazyllm/agent/base.py`, which is not part
of the excerpt; only its call site (line 69) is.  It is therefore modelled
from the spec (§4.2, §7). -/

/-- The two locally recoverable tool failures of the spec's taxonomy. -/
inductive ToolError where
  | unknownTool
  | invalidArguments
  deriving DecidableEq, Repr

/-- Modelled from the spec: the error description text a failed tool
invocation surfaces to the model ("a tool-result Turn carrying an error
description"); the exact wording is unspecified, only that it describes
the failure. -/
def errorText : ToolError → String
  | .unknownTool => "Error: the requested tool is not registered."
  | .invalidArguments => "Error: the tool arguments are invalid."

/-- Modelled from the spec: the raw tool registry lookup and invocation
(§4.2, §6) — `resolve(name)` fails with `UnknownTool` for an unregistered
name, and the resolved capability may fail with `InvalidArguments` or
return an optional result text. -/
def dispatchToolRaw
    (registry : String → Option (String → Except ToolError (Option String)))
    (name args : String) : Except ToolError (Option String) :=
  match registry name with
  | none => .error .unknownTool
  | some f => f args

/-- Modelled from the spec: `BaseAgent._call_tool`, absent from the
excerpt — `UnknownTool` / `InvalidArguments` are "recovered locally,
surfaced to the model as a tool-result Turn describing the failure"
(§7); a `None` result means no observation.  So a failure becomes a
`some` result carrying the error description text, which the `_run` call
site (lines 69-73) turns into a `tool` turn like any other result. -/
def callToolRecover
    (registry : String → Option (String → Except ToolError (Option String)))
    (name args : String) : Option String :=
  match dispatchToolRaw registry name args with
  | .error e => some (errorText e)
  | .ok r => r

/-! Concrete instances used by counterexamples and witnesses. -/

/-- A tool dispatcher that never produces an observation. -/
def ctNone : String → String → Option String := fun _ _ => none

/-- A sample tool-call request. -/
def tcX : ToolCall := ⟨"1", "foo", "\x7b\x7d"⟩

/-- A second sample tool-call request. -/
def tcY : ToolCall := ⟨"2", "bar", "\x7b\x7d"⟩

/-- A user turn used as pre-existing history. -/
def userMsg : Message := { role := some "user", content := some "q" }

/-- The claim C1 fragment sequence:
`[{role: assistant, content: "Hi"}, {content: " there"},
{role: assistant, tool_calls: tcs}]`. -/
def fragSeqRole (tcs : List ToolCall) : List Message :=
  [ { role := some ASSISTANT, content := some "Hi" },
    { content := some " there" },
    { role := some ASSISTANT, tool_calls := tcs } ]

/-- The same sequence with the third fragment carrying no `role` key. -/
def fragSeqNoRole (tcs : List ToolCall) : List Message :=
  [ { role := some ASSISTANT, content := some "Hi" },
    { content := some " there" },
    { tool_calls := tcs } ]

/-- A backend whose fragment stream is always empty. -/
def emptyBackend : List Message → List Message := fun _ => []

/-- A pre-existing tool turn (so that the continuation check sees `TOOL`). -/
def toolMsg0 : Message :=
  { role := some TOOL, content := some "r", name := some "t", tool_call_id := some "1" }

/-- A backend that requests exactly one tool call per round. -/
def mockBackend : List Message → List Message := fun _ =>
  [ { role := some ASSISTANT, tool_calls := [tcX] } ]

/-- A tool dispatcher that always produces a result turn. -/
def mockCallTool : String → String → Option String := fun _ _ => some "result"

/-- A backend emitting two tool-calls-bearing fragments in one round. -/
def twoFragBackend : List Message → List Message := fun _ =>
  [ { role := some ASSISTANT, tool_calls := [tcX] },
    { tool_calls := [tcY] } ]

/-- A registry with no tools at all (every lookup is `UnknownTool`). -/
def emptyRegistry : String → Option (String → Except ToolError (Option String)) :=
  fun _ => none

/-- An agent state whose role context is already `assistant`. -/
def assistantState : AgentState :=
  { initAgentState [] with last_role := some ASSISTANT }

/-- A tool dispatcher echoing the tool name (to tell results apart). -/
def echoCallTool : String → String → Option String := fun n _ => some n

/-- A leaf module contributing only a train descriptor. -/
def leafTrain (n : Nat) : ModuleTree := .node (some n) none none []

/-- The spec's example tree `root -> [child1, child2]`, every node
contributing a train descriptor. -/
def exampleTree : ModuleTree := .node (some 0) none none [leafTrain 1, leafTrain 2]

/-- A one-node tree contributing one descriptor per phase. -/
def c8Tree : ModuleTree := .node (some 1) (some 2) (some 3) []

/-- A backend producing a single plain assistant answer. -/
def plainBackend : List Message → List Message := fun _ =>
  [ { role := some ASSISTANT, content := some "ok" } ]

/-- The final state of running `plainBackend` once over `[userMsg]`. -/
def plainFinal : AgentState :=
  { caller_history := [userMsg]
    llm_chat_history := [userMsg, { role := some ASSISTANT, content := some "ok" }]
    last_role := some ASSISTANT
    content_cache := []
    tool_call_counter := 0
    dispatch_rounds := 0
    yields := [{ role := some ASSISTANT, content := some "ok" }] }

/-- A fragment carrying two tool calls at once. -/
def twoCallsFrag : Message := { role := some ASSISTANT, tool_calls := [tcX, tcY] }

/-- The state after processing `twoCallsFrag` from the entry state. -/
def twoCallsFinal : AgentState :=
  { caller_history := []
    llm_chat_history := [{ role := some ASSISTANT, content := some "",
                           tool_calls := [tcX, tcY] }]
    last_role := some ASSISTANT
    content_cache := []
    tool_call_counter := 1
    dispatch_rounds := 0
    yields := [twoCallsFrag] }

/-- The tool-result turn `mockCallTool` produces for `tcX`. -/
def mockToolRes : Message :=
  { role := some TOOL, content := some "result", name := some "foo", tool_call_id := some "1" }

/-- The state after one `mockBackend` round from the entry state. -/
def mockFinal : AgentState :=
  { caller_history := []
    llm_chat_history := [{ role := some ASSISTANT, content := some "", tool_calls := [tcX] },
                         mockToolRes]
    last_role := some ASSISTANT
    content_cache := []
    tool_call_counter := 1
    dispatch_rounds := 1
    yields := [{ role := some ASSISTANT, tool_calls := [tcX] }, mockToolRes] }

/-- The result state of one mock round (batch `[tcX]`, ghost bump). -/
def mockStep (s : AgentState) : AgentState :=
  { batchState mockCallTool s [tcX] with dispatch_rounds := s.dispatch_rounds + 1 }

/-- First fragment of the claim C1 sequence. -/
def fragHi : Message := { role := some ASSISTANT, content := some "Hi" }

/-- Second fragment of the claim C1 sequence. -/
def fragThere : Message := { content := some " there" }

/-- State after processing `fragHi` from the entry state. -/
def afterHi : AgentState :=
  { caller_history := [], llm_chat_history := [], last_role := some ASSISTANT,
    content_cache := ["Hi"], tool_call_counter := 0, dispatch_rounds := 0,
    yields := [fragHi] }

/-- State after processing `fragHi` then `fragThere`. -/
def afterThere : AgentState :=
  { afterHi with content_cache := ["Hi", " there"], yields := [fragHi, fragThere] }

/-- State after the cache `["Hi", " there"]` has been flushed. -/
def afterFlush : AgentState :=
  { caller_history := [],
    llm_chat_history := [{ role := some ASSISTANT, content := some "Hi there" }],
    last_role := some ASSISTANT, content_cache := [], tool_call_counter := 0,
    dispatch_rounds := 0, yields := [fragHi, fragThere] }

/-- The flushed turn `"Hi there"` (no tool calls attached). -/
def hiThereMsg : Message := { role := some ASSISTANT, content := some "Hi there" }

/-- The empty-content assistant turn carrying the tool calls. -/
def emptyToolCallsMsg : Message :=
  { role := some ASSISTANT, content := some "", tool_calls := [tcX] }

/-- The single merged turn the claim predicts. -/
def mergedMsg : Message :=
  { role := some ASSISTANT, content := some "Hi there", tool_calls := [tcX] }

/-- Three distinguishable tool-call requests. -/
def tcA : ToolCall := ⟨"a", "A", ""⟩

/-- Second of the three requests. -/
def tcB : ToolCall := ⟨"b", "B", ""⟩

/-- Third of the three requests. -/
def tcC : ToolCall := ⟨"c", "C", ""⟩

/-! Helper lemmas about the agent embedding. -/

@[simp] theorem flushCache_caller (s : AgentState) :
    (flushCache s).caller_history = s.caller_history := by
  unfold flushCache
  split <;> simp [pushHistory]

@[simp] theorem flushCache_last_role (s : AgentState) :
    (flushCache s).last_role = s.last_role := by
  unfold flushCache
  split <;> simp [pushHistory]

@[simp] theorem flushCache_counter (s : AgentState) :
    (flushCache s).tool_call_counter = s.tool_call_counter := by
  unfold flushCache
  split <;> simp [pushHistory]

@[simp] theorem flushCache_dispatch_rounds (s : AgentState) :
    (flushCache s).dispatch_rounds = s.dispatch_rounds := by
  unfold flushCache
  split <;> simp [pushHistory]

@[simp] theorem flushCache_yields (s : AgentState) :
    (flushCache s).yields = s.yields := by
  unfold flushCache
  split <;> simp [pushHistory]

theorem flushCache_hist (s : AgentState) :
    (flushCache s).llm_chat_history = s.llm_chat_history ++
      (if s.content_cache.isEmpty then []
       else [{ role := s.last_role, content := some (String.join s.content_cache) }]) := by
  unfold flushCache
  split <;> simp_all [pushHistory]

/-- Characterization of the per-batch dispatch loop (lines 65-73): it
appends exactly the result turns of the requests that produced one, in
request order, both to history and to the yielded stream, and changes
nothing else. -/
theorem dispatchToolCalls_spec (ct : String → String → Option String)
    (tcs : List ToolCall) (s : AgentState) :
    dispatchToolCalls ct s tcs =
      { s with llm_chat_history := s.llm_chat_history ++ tcs.filterMap (toolResultMsg ct),
               yields := s.yields ++ tcs.filterMap (toolResultMsg ct) } := by
  induction tcs generalizing s with
  | nil => simp [dispatchToolCalls]
  | cons tc rest ih =>
    cases h : ct tc.name tc.arguments with
    | none => simp [dispatchToolCalls, h, ih, toolResultMsg]
    | some res => simp [dispatchToolCalls, h, ih, toolResultMsg, pushHistory, pushYield]

@[simp] theorem dispatchToolCalls_caller (ct : String → String → Option String)
    (tcs : List ToolCall) (s : AgentState) :
    (dispatchToolCalls ct s tcs).caller_history = s.caller_history := by
  rw [dispatchToolCalls_spec]

@[simp] theorem dispatchToolCalls_counter (ct : String → String → Option String)
    (tcs : List ToolCall) (s : AgentState) :
    (dispatchToolCalls ct s tcs).tool_call_counter = s.tool_call_counter := by
  rw [dispatchToolCalls_spec]

@[simp] theorem dispatchToolCalls_dispatch_rounds (ct : String → String → Option String)
    (tcs : List ToolCall) (s : AgentState) :
    (dispatchToolCalls ct s tcs).dispatch_rounds = s.dispatch_rounds := by
  rw [dispatchToolCalls_spec]

@[simp] theorem dispatchToolCalls_cache (ct : String → String → Option String)
    (tcs : List ToolCall) (s : AgentState) :
    (dispatchToolCalls ct s tcs).content_cache = s.content_cache := by
  rw [dispatchToolCalls_spec]

@[simp] theorem dispatchToolCalls_last_role (ct : String → String → Option String)
    (tcs : List ToolCall) (s : AgentState) :
    (dispatchToolCalls ct s tcs).last_role = s.last_role := by
  rw [dispatchToolCalls_spec]

theorem dispatchToolCalls_hist (ct : String → String → Option String)
    (tcs : List ToolCall) (s : AgentState) :
    (dispatchToolCalls ct s tcs).llm_chat_history =
      s.llm_chat_history ++ tcs.filterMap (toolResultMsg ct) := by
  rw [dispatchToolCalls_spec]

theorem roleStep_fields (s : AgentState) (r : Message) :
    (roleStep s r).caller_history = s.caller_history ∧
    (roleStep s r).tool_call_counter = s.tool_call_counter ∧
    (roleStep s r).dispatch_rounds = s.dispatch_rounds ∧
    (roleStep s r).yields = s.yields ∧
    ∃ d, (roleStep s r).llm_chat_history = s.llm_chat_history ++ d := by
  unfold roleStep
  split
  · refine ⟨by simp, by simp, by simp, by simp, ?_⟩
    rw [flushCache_hist]
    exact ⟨_, rfl⟩
  · exact ⟨rfl, rfl, rfl, rfl, [], by simp⟩

theorem contentStep_fields (s : AgentState) (r : Message) :
    (contentStep s r).caller_history = s.caller_history ∧
    (contentStep s r).tool_call_counter = s.tool_call_counter ∧
    (contentStep s r).dispatch_rounds = s.dispatch_rounds ∧
    (contentStep s r).yields = s.yields ∧
    (contentStep s r).last_role = s.last_role ∧
    (contentStep s r).llm_chat_history = s.llm_chat_history := by
  unfold contentStep
  split <;> simp

theorem toolCallsStep_fields (ct : String → String → Option String)
    (s : AgentState) (r : Message) (s' : AgentState)
    (h : toolCallsStep ct s r = .ok s') :
    s'.caller_history = s.caller_history ∧
    s'.dispatch_rounds = s.dispatch_rounds ∧
    s'.yields = s.yields ++ r.tool_calls.filterMap (toolResultMsg ct) ∧
    s'.tool_call_counter =
      (if r.tool_calls.isEmpty then s.tool_call_counter else s.tool_call_counter + 1) ∧
    ∃ d, s'.llm_chat_history = s.llm_chat_history ++ d := by
  unfold toolCallsStep at h
  split at h
  · rename_i hemp
    simp only [Except.ok.injEq] at h
    subst h
    rw [List.isEmpty_iff] at hemp
    simp [hemp]
  · split at h
    · simp only [Except.ok.injEq] at h
      subst h
      rename_i hemp _
      refine ⟨by simp [dispatchToolCalls_spec, pushHistory], ?_, ?_, ?_, ?_⟩
      · simp [dispatchToolCalls_spec, pushHistory]
      · simp [dispatchToolCalls_spec, pushHistory]
      · simp [hemp, dispatchToolCalls_spec, pushHistory]
      · rw [dispatchToolCalls_hist]
        simp [pushHistory]
    · cases h

/-- Frame facts about one fragment step: the caller's list and the ghost
round counter are untouched, the consecutive-tool-call counter increases
by one exactly when the fragment carries tool calls, and the history only
grows. -/
theorem processFragment_fields (ct : String → String → Option String)
    (s : AgentState) (r : Message) (s' : AgentState)
    (h : processFragment ct s r = .ok s') :
    s'.caller_history = s.caller_history ∧
    s'.dispatch_rounds = s.dispatch_rounds ∧
    s'.tool_call_counter =
      (if r.tool_calls.isEmpty then s.tool_call_counter else s.tool_call_counter + 1) ∧
    ∃ d, s'.llm_chat_history = s.llm_chat_history ++ d := by
  unfold processFragment at h
  obtain ⟨h1, h2, h3, h4, h5⟩ := toolCallsStep_fields ct _ r s' h
  obtain ⟨c1, c2, c3, c4, c5, c6⟩ :=
    contentStep_fields (roleStep (pushYield s r) r) r
  obtain ⟨r1, r2, r3, r4, r5⟩ := roleStep_fields (pushYield s r) r
  obtain ⟨d1, hd1⟩ := r5
  obtain ⟨d2, hd2⟩ := h5
  refine ⟨?_, ?_, ?_, ?_⟩
  · simp_all [pushYield]
  · simp_all [pushYield]
  · simp_all [pushYield]
  · exact ⟨d1 ++ d2, by simp_all [pushYield, List.append_assoc]⟩

/-- The frame facts lifted over a whole fragment sequence; the counter is
now only monotone (it grows by the number of tool-calls fragments). -/
theorem processFragments_fields (ct : String → String → Option String)
    (rs : List Message) : ∀ (s s' : AgentState),
    processFragments ct s rs = .ok s' →
    s'.caller_history = s.caller_history ∧
    s'.dispatch_rounds = s.dispatch_rounds ∧
    s.tool_call_counter ≤ s'.tool_call_counter ∧
    ∃ d, s'.llm_chat_history = s.llm_chat_history ++ d := by
  induction rs with
  | nil =>
    intro s s' h
    simp [processFragments] at h
    subst h
    exact ⟨rfl, rfl, Nat.le_refl _, ⟨[], by simp⟩⟩
  | cons r rest ih =>
    intro s s' h
    simp only [processFragments] at h
    cases hp : processFragment ct s r with
    | error e => rw [hp] at h; cases h
    | ok s1 =>
      rw [hp] at h
      obtain ⟨a1, a2, a3, d1, hd1⟩ := processFragment_fields ct s r s1 hp
      obtain ⟨b1, b2, b3, d2, hd2⟩ := ih s1 s' h
      refine ⟨by rw [b1, a1], by rw [b2, a2], ?_, ⟨d1 ++ d2, ?_⟩⟩
      · have hc : s.tool_call_counter ≤ s1.tool_call_counter := by
          rw [a3]; split <;> omega
        omega
      · rw [hd2, hd1, List.append_assoc]

@[simp] theorem ghostStep_caller (sp sn : AgentState) :
    (ghostStep sp sn).caller_history = sn.caller_history := by
  unfold ghostStep; split <;> simp

@[simp] theorem ghostStep_hist (sp sn : AgentState) :
    (ghostStep sp sn).llm_chat_history = sn.llm_chat_history := by
  unfold ghostStep; split <;> simp

@[simp] theorem ghostStep_counter (sp sn : AgentState) :
    (ghostStep sp sn).tool_call_counter = sn.tool_call_counter := by
  unfold ghostStep; split <;> simp

@[simp] theorem ghostStep_cache (sp sn : AgentState) :
    (ghostStep sp sn).content_cache = sn.content_cache := by
  unfold ghostStep; split <;> simp

/-- The frame and counting facts of one full round: caller untouched,
counter monotone, the dispatch-round count grows by at most one and by
no more than the counter did, and history only grows. -/
theorem runRound_fields (b : List Message → List Message)
    (ct : String → String → Option String) (s s' : AgentState) (cont : Bool)
    (h : runRound b ct s = .ok (s', cont)) :
    s'.caller_history = s.caller_history ∧
    s.tool_call_counter ≤ s'.tool_call_counter ∧
    s'.dispatch_rounds + s.tool_call_counter ≤ s.dispatch_rounds + s'.tool_call_counter ∧
    s'.dispatch_rounds ≤ s.dispatch_rounds + 1 ∧
    ∃ d, s'.llm_chat_history = s.llm_chat_history ++ d := by
  unfold runRound at h
  cases hp : processFragments ct s (b s.llm_chat_history) with
  | error e => rw [hp] at h; cases h
  | ok s1 =>
    rw [hp] at h
    dsimp only at h
    obtain ⟨a1, a2, a3, d1, hd1⟩ := processFragments_fields ct _ s s1 hp
    cases hg : (ghostStep s (flushCache s1)).llm_chat_history.getLast? with
    | none => rw [hg] at h; cases h
    | some m =>
      rw [hg] at h
      simp only [Except.ok.injEq, Prod.mk.injEq] at h
      obtain ⟨hs, _⟩ := h
      subst hs
      refine ⟨by simp [a1], by simp [a3], ?_, ?_, ?_⟩
      · have hfc := flushCache_counter s1
        have hfd := flushCache_dispatch_rounds s1
        unfold ghostStep
        split <;> simp [a2] <;> omega
      · have hfc := flushCache_counter s1
        have hfd := flushCache_dispatch_rounds s1
        unfold ghostStep
        split <;> simp [a2]
      · rw [ghostStep_hist, flushCache_hist, hd1]
        exact ⟨_, by rw [List.append_assoc]⟩

/-- The per-round facts lifted over the whole loop, together with the
dispatch-round bound: starting from a state satisfying the invariant
(`dispatch_rounds ≤ maxCalls`, and below the guard also `≤` the
counter), a normally completed loop ends with at most `maxCalls`
tool-dispatch rounds. -/
theorem runLoop_fields (mc : Nat) (b : List Message → List Message)
    (ct : String → String → Option String) :
    ∀ (fuel : Nat) (s f : AgentState),
    runLoop mc b ct fuel s = .ok (some f) →
    f.caller_history = s.caller_history ∧
    (∃ d, f.llm_chat_history = s.llm_chat_history ++ d) ∧
    (s.dispatch_rounds ≤ mc →
      (s.tool_call_counter < mc → s.dispatch_rounds ≤ s.tool_call_counter) →
      f.dispatch_rounds ≤ mc) := by
  intro fuel
  induction fuel with
  | zero => intro s f h; cases h
  | succ n ih =>
    intro s f h
    rw [runLoop] at h
    split at h
    · rename_i hguard
      cases hr : runRound b ct s with
      | error e => rw [hr] at h; cases h
      | ok p =>
        obtain ⟨s1, cont⟩ := p
        rw [hr] at h
        obtain ⟨a1, a2, a3, a4, d1, hd1⟩ := runRound_fields b ct s s1 cont hr
        cases cont with
        | true =>
          obtain ⟨b1, ⟨d2, hd2⟩, b3⟩ := ih s1 f h
          refine ⟨by rw [b1, a1], ⟨d1 ++ d2, by rw [hd2, hd1, List.append_assoc]⟩, ?_⟩
          intro j1 j2
          exact b3 (by have := j2 hguard; omega) (fun hlt => by have := j2 hguard; omega)
        | false =>
          simp only [Except.ok.injEq, Option.some.injEq] at h
          subst h
          refine ⟨a1, ⟨d1, hd1⟩, ?_⟩
          intro j1 j2
          have := j2 hguard
          omega
    · simp only [Except.ok.injEq, Option.some.injEq] at h
      subst h
      exact ⟨rfl, ⟨[], by simp⟩, fun j1 _ => j1⟩

/-- Flushing an empty cache is a no-op. -/
theorem flushCache_empty (s : AgentState) (h : s.content_cache = []) :
    flushCache s = s := by
  unfold flushCache
  rw [h]
  simp

/-- The role step on a fragment without a truthy role is a no-op. -/
theorem roleStep_none (s : AgentState) (r : Message) (h : truthy r.role = false) :
    roleStep s r = s := by
  unfold roleStep
  rw [h]
  simp

/-- The content step on a fragment without truthy content is a no-op. -/
theorem contentStep_none (s : AgentState) (r : Message) (h : truthy r.content = false) :
    contentStep s r = s := by
  unfold contentStep
  rw [h]
  simp

/-- Exact shape of the tool-calls branch: in assistant context, a
non-empty batch appends the assistant turn followed by the result turns
of the calls that produced one, in request order, yields the same result
turns, clears the cache and bumps the counter by one. -/
theorem toolCallsStep_run (ct : String → String → Option String)
    (s : AgentState) (r : Message)
    (h1 : s.last_role = some ASSISTANT) (h2 : r.tool_calls.isEmpty = false) :
    toolCallsStep ct s r = .ok
      { s with llm_chat_history := s.llm_chat_history ++
                 ({ role := some ASSISTANT, content := some (String.join s.content_cache),
                    tool_calls := r.tool_calls } ::
                  r.tool_calls.filterMap (toolResultMsg ct)),
               content_cache := [],
               yields := s.yields ++ r.tool_calls.filterMap (toolResultMsg ct),
               tool_call_counter := s.tool_call_counter + 1 } := by
  unfold toolCallsStep
  rw [h2]
  simp only [Bool.false_eq_true, if_false, if_pos h1]
  simp [dispatchToolCalls_spec, pushHistory, List.append_assoc]

/-- The role step on a fragment with a truthy role flushes and records
the role. -/
theorem roleStep_some (s : AgentState) (r : Message) (h : truthy r.role = true) :
    roleStep s r = { flushCache s with last_role := r.role } := by
  unfold roleStep
  rw [h]
  simp

/-- String join of the empty list. -/
theorem stringJoin_nil : String.join [] = "" := rfl

/-- Every produced tool-result turn carries the `tool` role. -/
theorem toolResultMsg_role (ct : String → String → Option String) (tc : ToolCall)
    (m : Message) (h : toolResultMsg ct tc = some m) : m.role = some TOOL := by
  unfold toolResultMsg at h
  cases hc : ct tc.name tc.arguments with
  | none => rw [hc] at h; cases h
  | some res =>
    rw [hc] at h
    simp at h
    subst h
    rfl

/-- Composing a round from its pieces: if the fragment fold succeeds with
an empty trailing cache and the resulting history has a last element,
the round returns the ghost-adjusted state and continues according to
that last element's role. -/
theorem runRound_eq (b : List Message → List Message)
    (ct : String → String → Option String) (s s1 : AgentState)
    (hp : processFragments ct s (b s.llm_chat_history) = .ok s1)
    (hc : s1.content_cache = [])
    (m : Message) (hl : s1.llm_chat_history.getLast? = some m) :
    runRound b ct s = .ok (ghostStep s s1, decide (m.role = some TOOL)) := by
  unfold runRound
  rw [hp]
  dsimp only
  rw [flushCache_empty s1 hc]
  rw [show (ghostStep s s1).llm_chat_history.getLast? = some m from by
    rw [ghostStep_hist]
    exact hl]
/-- One full round over a backend that answers with a single fragment
carrying the assistant role and a non-empty tool-call batch, from a state
with an empty cache: the round appends the assistant turn and the result
turns, bumps both the counter and the ghost dispatch-round count, and
continues exactly when some call produced a result turn. -/
theorem runRound_assistantBatch (b : List Message → List Message)
    (ct : String → String → Option String) (s : AgentState)
    (a : ToolCall) (l : List ToolCall)
    (hb : b s.llm_chat_history = [{ role := some ASSISTANT, tool_calls := a :: l }])
    (h2 : s.content_cache = []) :
    runRound b ct s = .ok
      ({ batchState ct s (a :: l) with dispatch_rounds := s.dispatch_rounds + 1 },
       !((a :: l).filterMap (toolResultMsg ct)).isEmpty) := by
  have hpf : processFragment ct s { role := some ASSISTANT, tool_calls := a :: l } =
      .ok (batchState ct s (a :: l)) := by
    unfold processFragment
    rw [roleStep_some (pushYield s { role := some ASSISTANT, tool_calls := a :: l })
          { role := some ASSISTANT, tool_calls := a :: l } rfl]
    rw [flushCache_empty (pushYield s { role := some ASSISTANT, tool_calls := a :: l })
          (by simp [pushYield, h2])]
    rw [contentStep_none _ { role := some ASSISTANT, tool_calls := a :: l } rfl]
    rw [toolCallsStep_run ct _ { role := some ASSISTANT, tool_calls := a :: l } rfl rfl]
    simp [pushYield, h2, stringJoin_nil, batchState]
  have hpfs : processFragments ct s [{ role := some ASSISTANT, tool_calls := a :: l }] =
      .ok (batchState ct s (a :: l)) := by
    simp only [processFragments]
    rw [hpf]
  have hlast : ∃ mm, (({ role := some ASSISTANT, content := some "", tool_calls := a :: l } :
        Message) :: (a :: l).filterMap (toolResultMsg ct)).getLast? = some mm ∧
      decide (mm.role = some TOOL) = !((a :: l).filterMap (toolResultMsg ct)).isEmpty := by
    cases hres : (a :: l).filterMap (toolResultMsg ct) with
    | nil =>
      exact ⟨{ role := some ASSISTANT, content := some "", tool_calls := a :: l }, rfl, rfl⟩
    | cons m ms =>
      cases hQ : (m :: ms).getLast? with
      | none => simp at hQ
      | some mm =>
        refine ⟨mm, by rw [List.getLast?_cons_cons]; exact hQ, ?_⟩
        have hmem : mm ∈ m :: ms := List.mem_of_mem_getLast? hQ
        rw [← hres] at hmem
        obtain ⟨tc, _, htc⟩ := List.mem_filterMap.mp hmem
        rw [toolResultMsg_role ct tc mm htc]
        simp
  obtain ⟨mm, hQ, hflag⟩ := hlast
  have hl : (batchState ct s (a :: l)).llm_chat_history.getLast? = some mm := by
    rw [show (batchState ct s (a :: l)).llm_chat_history = s.llm_chat_history ++
          ({ role := some ASSISTANT, content := some "", tool_calls := a :: l } ::
            (a :: l).filterMap (toolResultMsg ct)) from rfl]
    rw [List.getLast?_append_cons]
    exact hQ
  have hrr := runRound_eq b ct s (batchState ct s (a :: l))
    (by rw [hb]; exact hpfs) rfl mm hl
  rw [hrr, hflag]
  unfold ghostStep
  rw [if_pos (show s.tool_call_counter < (batchState ct s (a :: l)).tool_call_counter from
        Nat.lt_succ_self _)]
  rfl

/-- The fold over an empty fragment list. -/
theorem processFragments_nil (ct : String → String → Option String) (s : AgentState) :
    processFragments ct s [] = .ok s := rfl

/-- Unfolding one successful step of the fragment fold. -/
theorem processFragments_cons_ok (ct : String → String → Option String)
    (s s1 : AgentState) (r : Message) (rest : List Message)
    (h : processFragment ct s r = .ok s1) :
    processFragments ct s (r :: rest) = processFragments ct s1 rest := by
  simp only [processFragments]
  rw [h]

@[simp] theorem flushCache_cache (s : AgentState) :
    (flushCache s).content_cache = [] := by
  unfold flushCache
  split
  · rename_i h
    exact List.isEmpty_iff.mp h
  · rfl

/-- Flushing commutes with recording a yield (they touch disjoint fields). -/
theorem flushCache_pushYield (s : AgentState) (m : Message) :
    flushCache (pushYield s m) = pushYield (flushCache s) m := by
  unfold flushCache pushYield pushHistory
  dsimp only
  split <;> rfl

/-- String join of the C1 cache. -/
theorem stringJoin_hiThere : String.join ["Hi", " there"] = "Hi there" := rfl

/-- Processing an assistant fragment that carries a non-empty batch: the
pending cache is flushed first (because the fragment's `role` is set),
then the assistant turn with empty content and the result turns are
appended. -/
theorem processFragment_assistantBatch (ct : String → String → Option String)
    (s : AgentState) (a : ToolCall) (l : List ToolCall) :
    processFragment ct s { role := some ASSISTANT, tool_calls := a :: l } =
      .ok (batchState ct (flushCache s) (a :: l)) := by
  unfold processFragment
  rw [roleStep_some (pushYield s { role := some ASSISTANT, tool_calls := a :: l })
        { role := some ASSISTANT, tool_calls := a :: l } rfl]
  rw [flushCache_pushYield]
  rw [contentStep_none _ { role := some ASSISTANT, tool_calls := a :: l } rfl]
  rw [toolCallsStep_run ct _ { role := some ASSISTANT, tool_calls := a :: l } rfl rfl]
  simp [batchState, pushYield, stringJoin_nil]

/-- Processing a role-less fragment that carries a non-empty batch in
assistant context: the cached content is folded into the assistant turn
together with the tool calls. -/
theorem processFragment_toolsOnly (ct : String → String → Option String)
    (s : AgentState) (a : ToolCall) (l : List ToolCall)
    (h1 : s.last_role = some ASSISTANT) :
    processFragment ct s { tool_calls := a :: l } = .ok
      { s with llm_chat_history := s.llm_chat_history ++
                 ({ role := some ASSISTANT, content := some (String.join s.content_cache),
                    tool_calls := a :: l } :: (a :: l).filterMap (toolResultMsg ct)),
               content_cache := [],
               tool_call_counter := s.tool_call_counter + 1,
               yields := s.yields ++
                 ({ tool_calls := a :: l } :: (a :: l).filterMap (toolResultMsg ct)) } := by
  unfold processFragment
  rw [roleStep_none (pushYield s { tool_calls := a :: l }) { tool_calls := a :: l } rfl]
  rw [contentStep_none _ { tool_calls := a :: l } rfl]
  rw [toolCallsStep_run ct _ { tool_calls := a :: l } (by simp [pushYield, h1]) rfl]
  simp [pushYield, List.append_assoc]

/-- One round of the mock always-one-tool-call backend. -/
theorem mock_round (s : AgentState) (hc : s.content_cache = []) :
    runRound mockBackend mockCallTool s = .ok (mockStep s, true) := by
  have h := runRound_assistantBatch mockBackend mockCallTool s tcX [] rfl hc
  rw [show (!(List.filterMap (toolResultMsg mockCallTool) [tcX]).isEmpty) = true
        from rfl] at h
  exact h

/-- Driving the mock backend: from a clean state whose counter is `k`
short of the bound, the loop is still running after `k` more guard
checks and finishes at the `k + 1`-st, having added `k` to both counters. -/
theorem mock_loop (mc : Nat) : ∀ (k : Nat) (s : AgentState), s.content_cache = [] →
    s.tool_call_counter + k = mc →
    runLoop mc mockBackend mockCallTool k s = .ok none ∧
    ∃ f, runLoop mc mockBackend mockCallTool (k + 1) s = .ok (some f) ∧
      f.tool_call_counter = mc ∧ f.dispatch_rounds = s.dispatch_rounds + k := by
  intro k
  induction k with
  | zero =>
    intro s hc hk
    refine ⟨rfl, s, ?_, by omega, by omega⟩
    rw [runLoop]
    rw [if_neg (show ¬ s.tool_call_counter < mc by omega)]
  | succ n ih =>
    intro s hc hk
    have hround := mock_round s hc
    have hc2 : (mockStep s).content_cache = [] := rfl
    have hk2 : (mockStep s).tool_call_counter + n = mc := by
      show s.tool_call_counter + 1 + n = mc
      omega
    obtain ⟨ih1, f, ih2, ih3, ih4⟩ := ih (mockStep s) hc2 hk2
    constructor
    · rw [runLoop]
      rw [if_pos (show s.tool_call_counter < mc by omega)]
      rw [hround]
      exact ih1
    · refine ⟨f, ?_, ih3, ?_⟩
      · rw [runLoop]
        rw [if_pos (show s.tool_call_counter < mc by omega)]
        rw [hround]
        exact ih2
      · rw [ih4]
        show s.dispatch_rounds + 1 + n = s.dispatch_rounds + (n + 1)
        omega

/-! Helper lemmas about the module embedding. -/

theorem sizeT_pos (t : ModuleTree) : 1 ≤ sizeT t := by
  cases t with
  | node a b c cs =>
    rw [show sizeT (.node a b c cs) = 1 + sizeL cs from by rw [sizeT]]
    omega

theorem sizeT_children (t : ModuleTree) : sizeT t = 1 + sizeL t.children := by
  cases t with
  | node a b c cs => simp [sizeT, ModuleTree.children]

theorem sizeL_cons (c : ModuleTree) (cs : List ModuleTree) :
    sizeL (c :: cs) = sizeT c + sizeL cs := by
  rw [sizeL]

theorem postT_eq (t : ModuleTree) : postT t = postL t.children ++ [t] := by
  cases t with
  | node a b c cs => simp [postT, ModuleTree.children]

theorem absorb_toList (l : List Nat) (o : Option Nat) : absorb l o = l ++ o.toList := by
  cases o <;> simp [absorb]

theorem filterMap_cons_toList {α β : Type} (f : α → Option β) (t : α) (ts : List α) :
    List.filterMap f (t :: ts) = (f t).toList ++ List.filterMap f ts := by
  cases h : f t <;> simp [List.filterMap_cons, h]

theorem absorbNodes_append (acc : TaskLists) (xs ys : List ModuleTree) :
    absorbNodes acc (xs ++ ys) = absorbNodes (absorbNodes acc xs) ys := by
  simp [absorbNodes, List.foldl_append]

/-- The three collections after absorbing a node list in order are the
previous collections extended by the nodes' non-`none` hook results, in
visit order. -/
theorem absorbNodes_fields (ts : List ModuleTree) : ∀ acc : TaskLists,
    (absorbNodes acc ts).train_tasks =
      acc.train_tasks ++ ts.filterMap ModuleTree.trainTask ∧
    (absorbNodes acc ts).deploy_tasks =
      acc.deploy_tasks ++ ts.filterMap ModuleTree.deployTask ∧
    (absorbNodes acc ts).eval_tasks =
      acc.eval_tasks ++ ts.filterMap ModuleTree.evalTask := by
  induction ts with
  | nil => intro acc; simp [absorbNodes]
  | cons t ts ih =>
    intro acc
    obtain ⟨i1, i2, i3⟩ := ih (absorbNode acc t)
    have e0 : absorbNodes acc (t :: ts) = absorbNodes (absorbNode acc t) ts := rfl
    refine ⟨?_, ?_, ?_⟩
    · rw [e0, i1, filterMap_cons_toList]
      simp [absorbNode, absorb_toList]
    · rw [e0, i2, filterMap_cons_toList]
      simp [absorbNode, absorb_toList]
    · rw [e0, i3, filterMap_cons_toList]
      simp [absorbNode, absorb_toList]

/-- The heart of the collector's correctness: an entry `(t, rem)` on the
stack means "finish the forest `rem` in post-order, then absorb `t`". -/
theorem collectLoop_absorb : ∀ (n : Nat) (rem : List ModuleTree), sizeL rem ≤ n →
    ∀ (t : ModuleTree) (rest : List (ModuleTree × List ModuleTree)) (acc : TaskLists),
    collectLoop ((t, rem) :: rest) acc =
      collectLoop rest (absorbNodes acc (postL rem ++ [t])) := by
  intro n
  induction n with
  | zero =>
    intro rem hle t rest acc
    cases rem with
    | nil =>
      rw [show collectLoop ((t, []) :: rest) acc =
            collectLoop rest (absorbNode acc t) from by rw [collectLoop]]
      rw [show postL ([] : List ModuleTree) = [] from by rw [postL]]
      simp [absorbNodes]
    | cons c cs =>
      exfalso
      have h1 := sizeT_pos c
      have h2 := sizeL_cons c cs
      omega
  | succ n ih =>
    intro rem hle t rest acc
    cases rem with
    | nil =>
      rw [show collectLoop ((t, []) :: rest) acc =
            collectLoop rest (absorbNode acc t) from by rw [collectLoop]]
      rw [show postL ([] : List ModuleTree) = [] from by rw [postL]]
      simp [absorbNodes]
    | cons c cs =>
      rw [show collectLoop ((t, c :: cs) :: rest) acc =
            collectLoop ((c, c.children) :: (t, cs) :: rest) acc from by rw [collectLoop]]
      have hszc : sizeL c.children ≤ n := by
        have h1 := sizeT_children c
        have h2 := sizeL_cons c cs
        omega
      have hszcs : sizeL cs ≤ n := by
        have h1 := sizeT_pos c
        have h2 := sizeL_cons c cs
        omega
      rw [ih c.children hszc c ((t, cs) :: rest) acc]
      rw [ih cs hszcs t rest _]
      congr 1
      rw [← absorbNodes_append]
      congr 1
      rw [show postL (c :: cs) = postT c ++ postL cs from by rw [postL]]
      rw [postT_eq]
      simp [List.append_assoc]

/-- The recursive collection pass equals absorbing the post-order node
enumeration into empty accumulators. -/
theorem updateCollect_postOrder (root : ModuleTree) :
    updateCollect root true = absorbNodes ⟨[], [], []⟩ (postT root) := by
  unfold updateCollect
  rw [show (if true then root.children else []) = root.children from rfl]
  rw [collectLoop_absorb (sizeL root.children) root.children (Nat.le_refl _) root [] _]
  rw [show ∀ acc : TaskLists, collectLoop [] acc = acc from fun acc => by rw [collectLoop]]
  rw [postT_eq]

/-- Post-order enumerates a forest with exactly one entry per node. -/
theorem postL_length : ∀ (n : Nat) (ts : List ModuleTree), sizeL ts ≤ n →
    (postL ts).length = sizeL ts := by
  intro n
  induction n with
  | zero =>
    intro ts hle
    cases ts with
    | nil =>
      rw [show postL ([] : List ModuleTree) = [] from by rw [postL]]
      rw [show sizeL ([] : List ModuleTree) = 0 from by rw [sizeL]]
      rfl
    | cons c cs =>
      exfalso
      have h1 := sizeT_pos c
      have h2 := sizeL_cons c cs
      omega
  | succ n ih =>
    intro ts hle
    cases ts with
    | nil =>
      rw [show postL ([] : List ModuleTree) = [] from by rw [postL]]
      rw [show sizeL ([] : List ModuleTree) = 0 from by rw [sizeL]]
      rfl
    | cons c cs =>
      rw [show postL (c :: cs) = postT c ++ postL cs from by rw [postL]]
      rw [postT_eq, sizeL_cons]
      have hszc : sizeL c.children ≤ n := by
        have h1 := sizeT_children c
        have h2 := sizeL_cons c cs
        omega
      have hszcs : sizeL cs ≤ n := by
        have h1 := sizeT_pos c
        have h2 := sizeL_cons c cs
        omega
      have e1 := ih c.children hszc
      have e2 := ih cs hszcs
      have e3 := sizeT_children c
      simp [e1, e2]
      omega

/-- Post-order enumerates a tree with exactly one entry per node. -/
theorem postT_length (t : ModuleTree) : (postT t).length = sizeT t := by
  rw [postT_eq]
  have e1 := postL_length (sizeL t.children) t.children (Nat.le_refl _)
  have e2 := sizeT_children t
  simp [e1]
  omega

/-- Concrete evaluation of the collector on the one-node three-phase tree. -/
theorem updateCollect_c8 : updateCollect c8Tree true = ⟨[1], [2], [3]⟩ := by
  simp [updateCollect, collectLoop, absorbNode, absorb, c8Tree, ModuleTree.children,
        ModuleTree.trainTask, ModuleTree.deployTask, ModuleTree.evalTask]

/-! The claims. -/

/-- Claim C3: an invocation of `FuncCallAgent._run` never mutates the
caller's history — a deep copy is taken at entry (line 43) and every
append targets the copy, so on completion the caller's list is identical
to what was passed in, and the internal history is the caller's history
extended by appends only. -/
theorem claim_C3 (maxCalls fuel : Nat) (backend : List Message → List Message)
    (callTool : String → String → Option String) (history : List Message)
    (f : AgentState)
    (h : runAgent maxCalls backend callTool history fuel = .ok (some f)) :
    f.caller_history = history ∧ ∃ d, f.llm_chat_history = history ++ d := by
  obtain ⟨h1, h2, _⟩ :=
    runLoop_fields maxCalls backend callTool fuel (initAgentState history) f h
  simp only [initAgentState] at h1 h2
  exact ⟨h1, h2⟩

/-- Witness for C3 at a concrete run: one round of a plain answer over
the caller history `[userMsg]`. -/
theorem claim_C3_witness :
    plainFinal.caller_history = [userMsg] ∧
    ∃ d, plainFinal.llm_chat_history = [userMsg] ++ d :=
  claim_C3 1 1 plainBackend ctNone [userMsg] plainFinal rfl

/-- Claim C4: within one assistant turn's tool-call batch, the dispatcher
is consulted per request in request order, and the result turns of the
requests that produce one appear in the history and in the yielded stream
in exactly that order (`filterMap` over the request list preserves it). -/
theorem claim_C4 (callTool : String → String → Option String) (s : AgentState)
    (tcs : List ToolCall) (h1 : s.last_role = some ASSISTANT) (h2 : tcs ≠ []) :
    ∃ s', processFragment callTool s { tool_calls := tcs } = .ok s' ∧
      s'.llm_chat_history = s.llm_chat_history ++
        ({ role := some ASSISTANT, content := some (String.join s.content_cache),
           tool_calls := tcs } :: tcs.filterMap (toolResultMsg callTool)) ∧
      s'.yields = s.yields ++
        ({ tool_calls := tcs } :: tcs.filterMap (toolResultMsg callTool)) := by
  cases tcs with
  | nil => exact absurd rfl h2
  | cons a l =>
    unfold processFragment
    rw [roleStep_none (pushYield s { tool_calls := a :: l }) { tool_calls := a :: l } rfl,
        contentStep_none (pushYield s { tool_calls := a :: l }) { tool_calls := a :: l } rfl]
    rw [toolCallsStep_run callTool (pushYield s { tool_calls := a :: l })
          { tool_calls := a :: l } (by simp [pushYield, h1]) rfl]
    exact ⟨_, rfl, by simp [pushYield], by simp [pushYield]⟩

/-- Witness for C4: three echo tools dispatched from an assistant-context
state. -/
theorem claim_C4_witness :
    ∃ s', processFragment echoCallTool assistantState { tool_calls := [tcA, tcB, tcC] } =
        .ok s' ∧
      s'.llm_chat_history = assistantState.llm_chat_history ++
        ({ role := some ASSISTANT,
           content := some (String.join assistantState.content_cache),
           tool_calls := [tcA, tcB, tcC] } ::
          List.filterMap (toolResultMsg echoCallTool) [tcA, tcB, tcC]) ∧
      s'.yields = assistantState.yields ++
        ({ tool_calls := [tcA, tcB, tcC] } ::
          List.filterMap (toolResultMsg echoCallTool) [tcA, tcB, tcC]) :=
  claim_C4 echoCallTool assistantState [tcA, tcB, tcC] (by decide) (by decide)

/-- Claim C5, counterexample: a single loop round whose fragment stream
carries two tool-calls-bearing fragments increments the consecutive
tool-call counter by two, not by one — the increment is per fragment, not
per round.  (The second component records that this was one dispatch
round.) -/
theorem claim_C5_counterexample :
    (runRound twoFragBackend ctNone (initAgentState [userMsg])).map
        (fun p => (p.1.tool_call_counter, p.1.dispatch_rounds)) = .ok (2, 1) := by
  rfl

/-- Claim C5 as amended: the consecutive-tool-call counter increases by
exactly one per processed fragment that carries tool calls — regardless
of how many individual calls the fragment's batch contains — and is
unchanged by fragments without tool calls.  (Per round it therefore grows
by the number of tool-calls fragments, not by at most one.) -/
theorem claim_C5_amended (callTool : String → String → Option String)
    (s : AgentState) (r : Message) (s' : AgentState)
    (h : processFragment callTool s r = .ok s') :
    s'.tool_call_counter =
      (if r.tool_calls.isEmpty then s.tool_call_counter else s.tool_call_counter + 1) :=
  (processFragment_fields callTool s r s' h).2.2.1

/-- Witness for C5: a fragment with a two-call batch bumps the counter by
one. -/
theorem claim_C5_witness :
    twoCallsFinal.tool_call_counter =
      (if twoCallsFrag.tool_calls.isEmpty then (initAgentState []).tool_call_counter
       else (initAgentState []).tool_call_counter + 1) :=
  claim_C5_amended ctNone (initAgentState []) twoCallsFrag twoCallsFinal rfl

/-- Claim C10: when the caller-supplied history is empty and the round
appends nothing (history still empty after the fragments) with nothing
left to flush, the end-of-round check `llm_chat_history[-1][ROLE]`
indexes an empty list and the invocation raises `IndexError` instead of
returning normally. -/
theorem claim_C10 (maxCalls fuel : Nat) (backend : List Message → List Message)
    (callTool : String → String → Option String) (s2 : AgentState)
    (h0 : 0 < maxCalls)
    (h1 : processFragments callTool (initAgentState []) (backend []) = .ok s2)
    (h2 : s2.llm_chat_history = []) (h3 : s2.content_cache = []) :
    runAgent maxCalls backend callTool [] (fuel + 1) = .error .indexError := by
  have hr : runRound backend callTool (initAgentState []) = .error .indexError := by
    unfold runRound
    rw [show (initAgentState []).llm_chat_history = [] from rfl]
    rw [h1]
    dsimp only
    rw [show (ghostStep (initAgentState []) (flushCache s2)).llm_chat_history.getLast?
          = none by rw [ghostStep_hist, flushCache_empty s2 h3, h2]; rfl]
  unfold runAgent
  rw [runLoop]
  rw [if_pos (show (initAgentState []).tool_call_counter < maxCalls from h0)]
  rw [hr]

/-- Witness for C10: the empty backend over an empty history raises the
index error on the first round. -/
theorem claim_C10_witness :
    runAgent 1 emptyBackend ctNone [] 1 = .error .indexError :=
  claim_C10 1 0 emptyBackend ctNone (initAgentState []) (by decide) rfl rfl rfl

/-- Claim C6: a tool invocation failing with `UnknownTool` or
`InvalidArguments` is recovered locally — the round completes without a
fatal error (`.ok`), a `tool` turn carrying the error description is
appended after the assistant turn, and the loop continues (the flag is
`true`). -/
theorem claim_C6
    (registry : String → Option (String → Except ToolError (Option String)))
    (s : AgentState) (tc : ToolCall) (e : ToolError)
    (h2 : s.content_cache = [])
    (h3 : dispatchToolRaw registry tc.name tc.arguments = .error e) :
    ∃ s', runRound (fun _ => [{ role := some ASSISTANT, tool_calls := [tc] }])
        (callToolRecover registry) s = .ok (s', true) ∧
      s'.llm_chat_history = s.llm_chat_history ++
        [ { role := some ASSISTANT, content := some "", tool_calls := [tc] },
          { role := some TOOL, content := some (errorText e),
            name := some tc.name, tool_call_id := some tc.id } ] := by
  have hct : callToolRecover registry tc.name tc.arguments = some (errorText e) := by
    unfold callToolRecover
    rw [h3]
  have hfm : List.filterMap (toolResultMsg (callToolRecover registry)) [tc] =
      [{ role := some TOOL, content := some (errorText e),
         name := some tc.name, tool_call_id := some tc.id }] := by
    simp [toolResultMsg, hct]
  have hrr := runRound_assistantBatch
      (fun _ => [{ role := some ASSISTANT, tool_calls := [tc] }])
      (callToolRecover registry) s tc [] rfl h2
  rw [hfm] at hrr
  simp only [List.isEmpty_cons, Bool.not_false] at hrr
  exact ⟨_, hrr, by simp [batchState, hfm]⟩

/-- Witness for C6: the empty registry fails `tcX` with `UnknownTool`,
which surfaces as a tool turn carrying the error text. -/
theorem claim_C6_witness :
    ∃ s', runRound (fun _ => [{ role := some ASSISTANT, tool_calls := [tcX] }])
        (callToolRecover emptyRegistry) (initAgentState []) = .ok (s', true) ∧
      s'.llm_chat_history = (initAgentState []).llm_chat_history ++
        [ { role := some ASSISTANT, content := some "", tool_calls := [tcX] },
          { role := some TOOL, content := some (errorText ToolError.unknownTool),
            name := some tcX.name, tool_call_id := some tcX.id } ] :=
  claim_C6 emptyRegistry (initAgentState []) tcX ToolError.unknownTool rfl rfl

/-- Claim C2, counterexample: `_run` does not terminate for every
backend — a backend whose fragment stream is empty, over a history whose
last turn has the `tool` role, makes every round a no-op that passes the
continuation check, so no fuel completes the loop and the counter never
advances. -/
theorem claim_C2_counterexample :
    ¬ runCompletes 5 emptyBackend ctNone [toolMsg0] := by
  intro hcomp
  obtain ⟨fuel, hne⟩ := hcomp
  apply hne
  have hfix : runRound emptyBackend ctNone (initAgentState [toolMsg0]) =
      .ok (initAgentState [toolMsg0], true) := rfl
  suffices h : ∀ n, runLoop 5 emptyBackend ctNone n (initAgentState [toolMsg0]) = .ok none by
    exact h fuel
  intro n
  induction n with
  | zero => rfl
  | succ n ih =>
    rw [runLoop]
    rw [if_pos (show (initAgentState [toolMsg0]).tool_call_counter < 5 by decide)]
    rw [hfix]
    exact ih

/-- Claim C2 as amended: every normally completed invocation performs at
most `maxCalls` tool-dispatch rounds, and against a backend that requests
exactly one tool call per round (each producing a result turn) the loop
is still running after `maxCalls` guard checks and stops at the next one,
with both the counter and the dispatch-round count equal to `maxCalls`;
but termination does not hold for arbitrary backends (see the
counterexample). -/
theorem claim_C2_amended :
    (∀ (maxCalls fuel : Nat) (backend : List Message → List Message)
        (callTool : String → String → Option String)
        (history : List Message) (f : AgentState),
        runAgent maxCalls backend callTool history fuel = .ok (some f) →
        f.dispatch_rounds ≤ maxCalls) ∧
    (∀ maxCalls : Nat,
        runAgent maxCalls mockBackend mockCallTool [] maxCalls = .ok none ∧
        ∃ f, runAgent maxCalls mockBackend mockCallTool [] (maxCalls + 1) = .ok (some f) ∧
          f.tool_call_counter = maxCalls ∧ f.dispatch_rounds = maxCalls) := by
  constructor
  · intro mc fuel b ct hist f h
    obtain ⟨_, _, h3⟩ := runLoop_fields mc b ct fuel (initAgentState hist) f h
    exact h3 (Nat.zero_le mc) (fun _ => Nat.le_refl 0)
  · intro mc
    obtain ⟨h1, f, hsome, hcnt, hdr⟩ :=
      mock_loop mc mc (initAgentState []) rfl (Nat.zero_add mc)
    refine ⟨h1, f, hsome, hcnt, ?_⟩
    rw [hdr]
    exact Nat.zero_add mc

/-- Witness for C2: with bound 1 the mock run finishes at fuel 2 in the
state `mockFinal`, whose dispatch-round count is within the bound. -/
theorem claim_C2_witness :
    mockFinal.dispatch_rounds ≤ 1 ∧
    runAgent 1 mockBackend mockCallTool [] 1 = .ok none :=
  ⟨claim_C2_amended.1 1 2 mockBackend mockCallTool [] mockFinal rfl,
   (claim_C2_amended.2 1).1⟩

/-- Claim C1, counterexample: on the fragment sequence
`[{role: assistant, content: "Hi"}, {content: " there"},
{role: assistant, tool_calls: [tcX]}]` the assembler appends TWO
assistant turns — the flushed `"Hi there"` turn (without the tool calls)
and a separate empty-content turn carrying them — not the single merged
turn the claim describes. -/
theorem claim_C1_counterexample :
    (processFragments ctNone (initAgentState []) (fragSeqRole [tcX])).map
        (fun s => s.llm_chat_history) = .ok [hiThereMsg, emptyToolCallsMsg] ∧
    ¬ (processFragments ctNone (initAgentState []) (fragSeqRole [tcX])).map
        (fun s => s.llm_chat_history) = .ok [mergedMsg] := by
  refine ⟨rfl, ?_⟩
  rw [show (processFragments ctNone (initAgentState []) (fragSeqRole [tcX])).map
        (fun s => s.llm_chat_history) = .ok [hiThereMsg, emptyToolCallsMsg] from rfl]
  simp [hiThereMsg, emptyToolCallsMsg, mergedMsg]

/-- Claim C1 as amended: because the third fragment's `role` key is set,
the pending `"Hi there"` cache is flushed as its own assistant turn
before the tool calls are processed, so the sequence yields the flushed
turn, then an empty-content assistant turn with the tool calls (then any
tool-result turns); the single merged turn of the original claim arises
exactly when the tool-calls fragment carries no `role` key. -/
theorem claim_C1_amended (ct : String → String → Option String)
    (tcs : List ToolCall) (h : tcs ≠ []) :
    (processFragments ct (initAgentState []) (fragSeqRole tcs)).map
        (fun s => s.llm_chat_history) =
      .ok ([ { role := some ASSISTANT, content := some "Hi there" },
             { role := some ASSISTANT, content := some "", tool_calls := tcs } ] ++
           tcs.filterMap (toolResultMsg ct)) ∧
    (processFragments ct (initAgentState []) (fragSeqNoRole tcs)).map
        (fun s => s.llm_chat_history) =
      .ok ([ { role := some ASSISTANT, content := some "Hi there", tool_calls := tcs } ] ++
           tcs.filterMap (toolResultMsg ct)) := by
  cases tcs with
  | nil => exact absurd rfl h
  | cons a l =>
    constructor
    · rw [show fragSeqRole (a :: l) =
            [fragHi, fragThere, { role := some ASSISTANT, tool_calls := a :: l }] from rfl]
      rw [processFragments_cons_ok ct (initAgentState []) afterHi fragHi _ rfl]
      rw [processFragments_cons_ok ct afterHi afterThere fragThere _ rfl]
      rw [processFragments_cons_ok ct afterThere _ _ _
            (processFragment_assistantBatch ct afterThere a l)]
      rw [show flushCache afterThere = afterFlush from rfl]
      rw [processFragments_nil]
      simp [batchState, afterFlush, Except.map]
    · rw [show fragSeqNoRole (a :: l) =
            [fragHi, fragThere, { tool_calls := a :: l }] from rfl]
      rw [processFragments_cons_ok ct (initAgentState []) afterHi fragHi _ rfl]
      rw [processFragments_cons_ok ct afterHi afterThere fragThere _ rfl]
      rw [processFragments_cons_ok ct afterThere _ _ _
            (processFragment_toolsOnly ct afterThere a l rfl)]
      rw [processFragments_nil]
      simp [afterThere, afterHi, Except.map, stringJoin_hiThere]

/-- Witness for C1: the amended description at `tcs = [tcX]` with the
no-observation dispatcher. -/
theorem claim_C1_witness :
    (processFragments ctNone (initAgentState []) (fragSeqRole [tcX])).map
        (fun s => s.llm_chat_history) =
      .ok ([ { role := some ASSISTANT, content := some "Hi there" },
             { role := some ASSISTANT, content := some "", tool_calls := [tcX] } ] ++
           List.filterMap (toolResultMsg ctNone) [tcX]) ∧
    (processFragments ctNone (initAgentState []) (fragSeqNoRole [tcX])).map
        (fun s => s.llm_chat_history) =
      .ok ([ { role := some ASSISTANT, content := some "Hi there", tool_calls := [tcX] } ] ++
           List.filterMap (toolResultMsg ctNone) [tcX]) :=
  claim_C1_amended ctNone [tcX] (by decide)

/-- Claim C7: with `recursive=True`, `ModuleBase.update` collects each
phase's task descriptors in post-order — each phase's collection is the
post-order node enumeration filtered through that phase's hook, so every
descendant precedes its ancestor, each node is enumerated exactly once
(the enumeration's length is the node count), and nodes whose hook
returns `None` are skipped; in particular the example tree
`root -> [child1, child2]` collects the train list `[1, 2, 0]`
(child1, child2, root). -/
theorem claim_C7 :
    (∀ root : ModuleTree,
        (updateCollect root true).train_tasks =
          (postT root).filterMap ModuleTree.trainTask ∧
        (updateCollect root true).deploy_tasks =
          (postT root).filterMap ModuleTree.deployTask ∧
        (updateCollect root true).eval_tasks =
          (postT root).filterMap ModuleTree.evalTask ∧
        (postT root).length = sizeT root) ∧
    (updateCollect exampleTree true).train_tasks = [1, 2, 0] := by
  have hptwo : ∀ root : ModuleTree,
      (updateCollect root true).train_tasks =
        (postT root).filterMap ModuleTree.trainTask ∧
      (updateCollect root true).deploy_tasks =
        (postT root).filterMap ModuleTree.deployTask ∧
      (updateCollect root true).eval_tasks =
        (postT root).filterMap ModuleTree.evalTask := by
    intro root
    obtain ⟨f1, f2, f3⟩ := absorbNodes_fields (postT root) ⟨[], [], []⟩
    rw [updateCollect_postOrder root]
    exact ⟨by rw [f1]; exact List.nil_append _, by rw [f2]; exact List.nil_append _,
           by rw [f3]; exact List.nil_append _⟩
  constructor
  · intro root
    obtain ⟨g1, g2, g3⟩ := hptwo root
    exact ⟨g1, g2, g3, postT_length root⟩
  · obtain ⟨g1, _, _⟩ := hptwo exampleTree
    rw [g1]
    simp [exampleTree, leafTrain, postT, postL, ModuleTree.trainTask]

/-- Claim C8, counterexample: in train mode the eval batch is launched
with `DPES(*eval_tasks).start()` and no `.wait()` — its launch record has
`waited := false`, exactly like the deploy batch — so update does not
wait for eval completion as the claim states. -/
theorem claim_C8_counterexample :
    (update c8Tree Mode.train true).2 =
      [ { kind := FlowKind.parallelFlow, tasks := [1], waited := true },
        { kind := FlowKind.dpesFlow, tasks := [2], waited := false },
        { kind := FlowKind.dpesFlow, tasks := [3], waited := false } ] ∧
    (update c8Tree Mode.train true).2.map Launch.waited = [true, false, false] := by
  have h : (update c8Tree Mode.train true).2 =
      [ { kind := FlowKind.parallelFlow, tasks := [1], waited := true },
        { kind := FlowKind.dpesFlow, tasks := [2], waited := false },
        { kind := FlowKind.dpesFlow, tasks := [3], waited := false } ] := by
    unfold update
    rw [updateCollect_c8]
    simp
  exact ⟨h, by rw [h]; rfl⟩

/-- Claim C8 as amended: in train mode with all three collections
non-empty, update performs exactly three launches — the train batch as a
`Parallel` flow that is started and waited on, then the deploy batch and
the eval batch each as a `DPES` flow that is started and NOT waited on
(deploy and eval get identical fire-and-forget treatment). -/
theorem claim_C8_amended (root : ModuleTree)
    (h1 : (updateCollect root true).train_tasks.isEmpty = false)
    (h2 : (updateCollect root true).deploy_tasks.isEmpty = false)
    (h3 : (updateCollect root true).eval_tasks.isEmpty = false) :
    (update root Mode.train true).2 =
      [ { kind := FlowKind.parallelFlow,
          tasks := (updateCollect root true).train_tasks, waited := true },
        { kind := FlowKind.dpesFlow,
          tasks := (updateCollect root true).deploy_tasks, waited := false },
        { kind := FlowKind.dpesFlow,
          tasks := (updateCollect root true).eval_tasks, waited := false } ] := by
  unfold update
  simp [h1, h2, h3]

/-- Witness for C8 at the one-node three-phase tree. -/
theorem claim_C8_witness :
    (update c8Tree Mode.train true).2 =
      [ { kind := FlowKind.parallelFlow,
          tasks := (updateCollect c8Tree true).train_tasks, waited := true },
        { kind := FlowKind.dpesFlow,
          tasks := (updateCollect c8Tree true).deploy_tasks, waited := false },
        { kind := FlowKind.dpesFlow,
          tasks := (updateCollect c8Tree true).eval_tasks, waited := false } ] :=
  claim_C8_amended c8Tree (by rw [updateCollect_c8]; rfl)
    (by rw [updateCollect_c8]; rfl) (by rw [updateCollect_c8]; rfl)

/-- Claim C9, counterexample: assigning a `ModuleBase` value to an
attribute of a fresh object appends it to `submodules` — attribute
assignment does have a hidden side effect on tree membership. -/
theorem claim_C9_counterexample :
    (setattrModule ⟨[], []⟩ "m1" (PyValue.moduleVal 7)).submodules =
      [PyValue.moduleVal 7] ∧
    ¬ (setattrModule ⟨[], []⟩ "m1" (PyValue.moduleVal 7)).submodules =
      (⟨[], []⟩ : ModuleObj).submodules := by
  constructor <;> decide

/-- Claim C9 as amended: `__setattr__` performs the ordinary attribute
update, and in addition auto-registers the assigned value in
`submodules` exactly when it is a `ModuleBase` instance; only
non-module assignments leave `submodules` untouched. -/
theorem claim_C9_amended (s : ModuleObj) (nm : String) (v : PyValue) :
    (setattrModule s nm v).attrs = setAttrDict s.attrs nm v ∧
    (setattrModule s nm v).submodules =
      (if v.isModule then s.submodules ++ [v] else s.submodules) := by
  unfold setattrModule
  cases hv : v.isModule <;> simp [hv]

end LazyLLMProof
